import Mathlib

/-!
Verification development for the DOCUSTITCH repository.

The repository has two layers:

* a React frontend (`frontend/src`), embedded here directly from the
  JavaScript source (`api.js`, `FileUpload.jsx`, `ResultDisplay.jsx`,
  `PrecomputedBrowser.jsx`);
* a graph-aware extraction-and-stitching core (the Python pipeline),
  whose code is not part of the shipped sources; the core is modelled
  from its specification (graph builder, waypoint selector, MMR gist
  extractor, stitcher, error taxonomy).

All scores are rationals, all token counts are naturals; fallible
JavaScript code is embedded with `Except`.
-/

namespace Docustitch

/-! ## Frontend embedding: api.js -/

/-- Shape of a status response polled from `/api/status/{id}`:
a `status` string and an optional `message`. -/
structure JsStatus where
  status : String
  message : Option String

/-- Fuel-indexed loop body of `pollUntilComplete` (api.js, lines 84-110).
`getStatus i` is the response to the `i`-th poll, `result` the value
`getResult` would return.  The source loops `while attempts < 120`,
returning the result on status `completed`, throwing
`status.message || 'Processing failed'` on status `failed`, and throwing
`'Processing timeout'` when the attempts run out. -/
def pollAux (R : Type) (getStatus : Nat → JsStatus) (result : R) :
    Nat → Nat → Except String R
  | 0, _ => .error "Processing timeout"
  | fuel + 1, attempts =>
    let s := getStatus attempts
    if s.status = "completed" then .ok result
    else if s.status = "failed" then .error (s.message.getD "Processing failed")
    else pollAux R getStatus result fuel (attempts + 1)

/-- `pollUntilComplete` from api.js: at most 120 polls starting at attempt 0. -/
def pollUntilComplete (R : Type) (getStatus : Nat → JsStatus) (result : R) :
    Except String R :=
  pollAux R getStatus result 120 0

/-- A polled status is terminal when it is `completed` or `failed`. -/
def terminalStatus (s : JsStatus) : Prop :=
  s.status = "completed" ∨ s.status = "failed"

instance (s : JsStatus) : Decidable (terminalStatus s) := by
  unfold terminalStatus; infer_instance

/-! ## Frontend embedding: FileUpload.jsx -/

/-- Upload action passed to the `onUpload` callback. -/
structure UploadAction where
  fileName : String

/-- `handleFileUpload` from FileUpload.jsx (lines 36-45): lowercase the
file name; if it ends neither in `.pdf` nor in `.xml`, alert and return
without uploading (`none`); otherwise invoke `onUpload` with the file. -/
def handleFileUpload (name : String) : Option UploadAction :=
  let fileName := name.toLower
  if ¬ fileName.endsWith ".pdf" ∧ ¬ fileName.endsWith ".xml" then
    none
  else
    some { fileName := name }

end Docustitch

namespace Docustitch

/-! ## Frontend embedding: metrics panels

`ResultDisplay.jsx` and `PrecomputedBrowser.jsx` both render a metrics
panel from an Evaluator metrics record whose fields may be null.  A JS
value that may be null or undefined is embedded as an `Option ℚ`;
calling `.toFixed` on null or undefined throws a `TypeError`, embedded
as `Except.error`; the optional-chaining form `x?.toFixed(..) || 0`
never throws and yields `0` when the field is missing. -/

/-- Evaluator metrics record with nullable fields. -/
structure Metrics where
  coverage : Option ℚ
  rougeL : Option ℚ
  embed_sim : Option ℚ
  redundancy : Option ℚ
  cue_density : Option ℚ

/-- JS member call `v.toFixed(..)`: throws a TypeError when `v` is null
or undefined, otherwise yields the number rendered. -/
def jsToFixed (v : Option ℚ) : Except String ℚ :=
  match v with
  | none => .error "TypeError"
  | some q => .ok q

/-- JS expression `v?.toFixed(..) || 0`: never throws; a missing value
renders as 0. -/
def jsToFixedOrZero (v : Option ℚ) : ℚ :=
  match v with
  | none => 0
  | some q => q

/-- Metrics panel of `ResultDisplay.jsx` (lines 67-92): the four always
shown metrics use `metrics.x?.toFixed(..) || 0`; the cue-density tile is
guarded by `cue_density !== undefined && cue_density > 0` and shown with
`cue_density?.toFixed(2)`. -/
def resultDisplayPanel (m : Metrics) : Except String (List ℚ) :=
  let base := [jsToFixedOrZero m.coverage, jsToFixedOrZero m.rougeL,
    jsToFixedOrZero m.embed_sim, jsToFixedOrZero m.redundancy]
  .ok (match m.cue_density with
    | some q => if 0 < q then base ++ [q] else base
    | none => base)

/-- Metrics panel of `PrecomputedBrowser.jsx` (lines 171-196): the four
always shown metrics call `summary.metrics.x.toFixed(..)` directly, with
no optional chaining; the cue-density tile is guarded by
`cue_density > 0` (false in JS when the field is null). -/
def precomputedPanel (m : Metrics) : Except String (List ℚ) := do
  let c ← jsToFixed m.coverage
  let r ← jsToFixed m.rougeL
  let e ← jsToFixed m.embed_sim
  let d ← jsToFixed m.redundancy
  let base := [c, r, e, d]
  pure (match m.cue_density with
    | some q => if 0 < q then base ++ [q] else base
    | none => base)

/-- Whether an `Except` computation succeeded. -/
def exceptOk {ε α : Type} : Except ε α → Bool
  | .ok _ => true
  | .error _ => false

end Docustitch

namespace Docustitch

/-! ## Frontend lemmas -/

theorem pollAux_timeout (R : Type) (f : Nat → JsStatus) (result : R)
    (fuel a : Nat)
    (h : ∀ i, a ≤ i → i < a + fuel → ¬ terminalStatus (f i)) :
    pollAux R f result fuel a = .error "Processing timeout" := by
  induction fuel generalizing a with
  | zero => rfl
  | succ k ih =>
    have hne := h a (le_refl a) (by omega)
    unfold terminalStatus at hne
    push_neg at hne
    unfold pollAux
    simp only [hne.1, hne.2, if_false]
    exact ih (a + 1) (fun i h1 h2 => h i (by omega) (by omega))

end Docustitch

namespace Docustitch

theorem pollAux_completed (R : Type) (f : Nat → JsStatus) (result : R)
    (fuel a n : Nat) (h1 : a ≤ n) (h2 : n < a + fuel)
    (hpre : ∀ i, a ≤ i → i < n → ¬ terminalStatus (f i))
    (hc : (f n).status = "completed") :
    pollAux R f result fuel a = .ok result := by
  induction fuel generalizing a with
  | zero => omega
  | succ k ih =>
    by_cases hn : n = a
    · subst hn
      unfold pollAux
      simp only [hc, if_true]
    · have hne := hpre a (le_refl a) (by omega)
      unfold terminalStatus at hne
      push_neg at hne
      unfold pollAux
      simp only [hne.1, hne.2, if_false]
      exact ih (a + 1) (by omega) (by omega)
        (fun i hi1 hi2 => hpre i (by omega) hi2)

theorem pollAux_failed (R : Type) (f : Nat → JsStatus) (result : R)
    (fuel a n : Nat) (h1 : a ≤ n) (h2 : n < a + fuel)
    (hpre : ∀ i, a ≤ i → i < n → ¬ terminalStatus (f i))
    (hc : (f n).status = "failed") :
    pollAux R f result fuel a =
      .error ((f n).message.getD "Processing failed") := by
  induction fuel generalizing a with
  | zero => omega
  | succ k ih =>
    by_cases hn : n = a
    · subst hn
      have hnc : ("failed" : String) ≠ "completed" := by decide
      unfold pollAux
      simp only [hc]
      rw [if_neg hnc, if_pos trivial]
    · have hne := hpre a (le_refl a) (by omega)
      unfold terminalStatus at hne
      push_neg at hne
      unfold pollAux
      simp only [hne.1, hne.2, if_false]
      exact ih (a + 1) (by omega) (by omega)
        (fun i hi1 hi2 => hpre i (by omega) hi2)

theorem pollAux_congr (R : Type) (f g : Nat → JsStatus) (result : R)
    (fuel a : Nat) (h : ∀ i, i < a + fuel → f i = g i) :
    pollAux R f result fuel a = pollAux R g result fuel a := by
  induction fuel generalizing a with
  | zero => rfl
  | succ k ih =>
    unfold pollAux
    rw [h a (by omega)]
    by_cases h1 : (g a).status = "completed"
    · simp only [h1, if_true]
    · by_cases h2 : (g a).status = "failed"
      · simp only [h1, h2, if_false, if_true]
      · simp only [h1, h2, if_false]
        exact ih (a + 1) (fun i hi => h i (by omega))

end Docustitch

namespace Docustitch

/-- C9: `pollUntilComplete` reads at most the first 120 polled statuses
(its outcome is unchanged by any change beyond poll 119); it returns the
`getResult` value the first time a polled status is `completed`; it
throws `status.message` (or `Processing failed` when the message is
absent) the first time a polled status is `failed`; and it throws
`Processing timeout` when no poll among the first 120 is terminal. -/
theorem pollUntilComplete_spec (R : Type) (f : Nat → JsStatus) (result : R) :
    (∀ g : Nat → JsStatus, (∀ i, i < 120 → f i = g i) →
      pollUntilComplete R f result = pollUntilComplete R g result) ∧
    (∀ n, n < 120 → (∀ i, i < n → ¬ terminalStatus (f i)) →
      ((f n).status = "completed" →
        pollUntilComplete R f result = .ok result) ∧
      ((f n).status = "failed" →
        pollUntilComplete R f result =
          .error ((f n).message.getD "Processing failed"))) ∧
    ((∀ i, i < 120 → ¬ terminalStatus (f i)) →
      pollUntilComplete R f result = .error "Processing timeout") := by
  refine ⟨?_, ?_, ?_⟩
  · intro g hg
    exact pollAux_congr R f g result 120 0 (fun i hi => hg i (by omega))
  · intro n hn hpre
    constructor
    · intro hc
      exact pollAux_completed R f result 120 0 n (by omega) (by omega)
        (fun i hi1 hi2 => hpre i hi2) hc
    · intro hc
      exact pollAux_failed R f result 120 0 n (by omega) (by omega)
        (fun i hi1 hi2 => hpre i hi2) hc
  · intro hall
    exact pollAux_timeout R f result 120 0 (fun i hi1 hi2 => hall i (by omega))

/-- Witness for C9: a run whose second poll reports `completed` returns
the result value. -/
theorem pollUntilComplete_spec_witness :
    pollUntilComplete Nat
      (fun i => if i = 1 then { status := "completed", message := none }
                else { status := "processing", message := none }) 42 =
      .ok 42 := by
  have h := (pollUntilComplete_spec Nat
    (fun i => if i = 1 then { status := "completed", message := none }
              else { status := "processing", message := none }) 42).2.1
    1 (by decide) (by decide)
  exact h.1 (by decide)

/-- C10: the upload handler invokes `onUpload` exactly when the
lowercased file name ends in `.pdf` or `.xml`, and the action it passes
carries that file; otherwise no upload is initiated. -/
theorem handleFileUpload_spec (name : String) :
    handleFileUpload name =
      (if name.toLower.endsWith ".pdf" ∨ name.toLower.endsWith ".xml"
       then some { fileName := name } else none) ∧
    ((handleFileUpload name).isSome = true ↔
      (name.toLower.endsWith ".pdf" ∨ name.toLower.endsWith ".xml")) := by
  unfold handleFileUpload
  by_cases h1 : name.toLower.endsWith ".pdf" <;>
    by_cases h2 : name.toLower.endsWith ".xml" <;>
      simp [h1, h2]

end Docustitch

namespace Docustitch

theorem jsToFixedOrZero_eq_getD (v : Option ℚ) :
    jsToFixedOrZero v = v.getD 0 := by
  cases v <;> rfl

/-- C8 counterexample: with the metrics object present but every metric
field null, the PrecomputedBrowser metrics panel throws a TypeError
(`summary.metrics.coverage.toFixed(1)` on a null field), so rendering
the metrics panel does fail — the claim is false for this display
component. -/
theorem precomputedPanel_null_fails :
    precomputedPanel
      { coverage := none, rougeL := none, embed_sim := none,
        redundancy := none, cue_density := none } = .error "TypeError" := rfl

/-- C8 amended: `ResultDisplay` tolerates null metric fields — its panel
never fails and shows each of the four always-present metrics as its
value, or 0 when the field is null; `PrecomputedBrowser` does not — its
panel succeeds exactly when coverage, rougeL, embed_sim and redundancy
are all non-null (only its cue-density tile is guarded against null). -/
theorem metricsPanels_null_tolerance (m : Metrics) :
    (∃ l, resultDisplayPanel m = .ok l ∧
      l.take 4 = [m.coverage.getD 0, m.rougeL.getD 0,
        m.embed_sim.getD 0, m.redundancy.getD 0]) ∧
    (exceptOk (precomputedPanel m) = true ↔
      (m.coverage.isSome ∧ m.rougeL.isSome ∧
        m.embed_sim.isSome ∧ m.redundancy.isSome)) := by
  constructor
  · unfold resultDisplayPanel
    cases hq : m.cue_density with
    | none =>
      exact ⟨_, rfl, by simp [jsToFixedOrZero_eq_getD]⟩
    | some q =>
      by_cases h0 : 0 < q
      · refine ⟨_, rfl, ?_⟩
        simp only [h0, if_true]
        simp [jsToFixedOrZero_eq_getD, List.take]
      · refine ⟨_, rfl, ?_⟩
        simp only [h0, if_false]
        simp [jsToFixedOrZero_eq_getD, List.take]
  · cases hc : m.coverage <;> cases hr : m.rougeL <;>
      cases he : m.embed_sim <;> cases hd : m.redundancy <;>
        simp [precomputedPanel, jsToFixed, exceptOk, hc, hr, he, hd,
          Except.bind, bind, pure, Except.pure]

end Docustitch

namespace Docustitch

/-! ## Core model: error taxonomy

Modelled from the spec: the Python core (`pipeline/`, `docustitch/`) is
not part of the shipped sources; §7 of the specification fixes a
six-class error taxonomy of which only `MalformedInput` is fatal. -/

/-- Modelled from the spec: the six error classes of §7. -/
inductive ErrClass where
  | MalformedInput
  | OrphanReference
  | DegenerateGraph
  | CyclicDependency
  | BudgetTooSmall
  | MissingReference
deriving DecidableEq, Repr

/-- Modelled from the spec: only `MalformedInput` aborts a run. -/
def fatal : ErrClass → Bool
  | .MalformedInput => true
  | _ => false

/-! ## Core model: stitcher

Modelled from the spec (§4.4, `pipeline/stitch_list.py` and
`pipeline/render_summary.py` are not under the shipped sources):
waypoints are ordered by a dependency-respecting traversal with a
document-order fallback for cyclic subsets, gists are ordered by
document position within each waypoint, and a token budget is filled
greedily, stopping once the next gist would exceed the budget. -/

/-- A gist: a candidate passage selected for one section.  `secId` is
the owning section, `pos` its original document position, `text` the
passage. -/
structure Gist where
  secId : Nat
  pos : Nat
  text : String
deriving DecidableEq, Repr

/-- A stitched unit: a gist with its assigned order rank and the
cumulative token count at insertion. -/
structure StitchedUnit where
  gist : Gist
  rank : Nat
  cumTokens : Nat
deriving DecidableEq, Repr

/-- `v` has no incoming edge whose source is still unprocessed. -/
def noIncomingFrom (edges : List (Nat × Nat)) (remaining : List Nat)
    (v : Nat) : Bool :=
  edges.all (fun e => !(e.2 == v && remaining.contains e.1))

/-- Kahn-style traversal with document-order tie-break: `remaining` is
kept in document order; at each step the earliest section with no
unprocessed predecessor is emitted.  When no such section exists the
remaining (cyclic) subset is emitted in document order and the fallback
is flagged. -/
def kahn (edges : List (Nat × Nat)) : Nat → List Nat → List Nat × Bool
  | 0, remaining => (remaining, !remaining.isEmpty)
  | fuel + 1, remaining =>
    match remaining.filter (noIncomingFrom edges remaining) with
    | [] => (remaining, !remaining.isEmpty)
    | v :: _ =>
      let r := kahn edges fuel (remaining.erase v)
      (v :: r.1, r.2)

/-- Waypoint traversal order of the stitcher: sections are supplied in
document order. -/
def stitchOrder (secs : List Nat) (edges : List (Nat × Nat)) :
    List Nat × Bool :=
  kahn edges secs.length secs

/-- `u` occurs strictly before `v` in the list. -/
def before (u v : Nat) : List Nat → Prop
  | [] => False
  | x :: xs => (x = u ∧ v ∈ xs) ∨ before u v xs

instance (u v : Nat) (l : List Nat) : Decidable (before u v l) := by
  induction l with
  | nil => exact isFalse (fun h => h)
  | cons x xs ih =>
    unfold before
    exact @instDecidableOr _ _ _ ih

/-- Gists of the run, grouped by the traversal order of their sections
and ordered by original document position within each section. -/
def orderedGists (order : List Nat) (gists : List Gist) : List Gist :=
  order.flatMap fun s =>
    List.insertionSort (fun g h => g.pos ≤ h.pos)
      (gists.filter (fun g => g.secId == s))

/-- Greedy budget fill: append gists in order, tracking the running
token count, and stop as soon as the next gist would exceed the budget
(a gist is never truncated mid-passage). -/
def greedyFill (tok : String → Nat) (budget : Nat) :
    List Gist → Nat → Nat → List StitchedUnit
  | [], _, _ => []
  | g :: gs, used, rank =>
    if used + tok g.text ≤ budget then
      { gist := g, rank := rank, cumTokens := used + tok g.text } ::
        greedyFill tok budget gs (used + tok g.text) (rank + 1)
    else []

/-- Coverage status of one section in the coverage record. -/
inductive CovStatus where
  | included
  | excludedBudget
  | excludedNotSelected
deriving DecidableEq, Repr

/-- Coverage record: a section is included when one of its gists made
the summary; otherwise it was dropped for budget reasons when it had a
gist at all, and was never selected when it had none. -/
def coverageOf (secs : List Nat) (gists : List Gist)
    (summary : List StitchedUnit) : List (Nat × CovStatus) :=
  secs.map fun s =>
    (s, if summary.any (fun u => u.gist.secId == s) then .included
        else if gists.any (fun g => g.secId == s) then .excludedBudget
        else .excludedNotSelected)

/-- Result of the stitcher: the summary, the coverage record, whether
the cyclic fallback fired, and a reported reason when the run degraded
(`BudgetTooSmall` when there were gists but none fit). -/
structure StitchResult where
  summary : List StitchedUnit
  coverage : List (Nat × CovStatus)
  cyclicFallback : Bool
  reason : Option ErrClass
deriving DecidableEq, Repr

/-- Modelled from the spec: the stitcher of §4.4.  `secs` are the
section ids in document order, `edges` the dependency edges of the
merged graph, `tok` the injected token counter. -/
def stitch (tok : String → Nat) (budget : Nat) (secs : List Nat)
    (edges : List (Nat × Nat)) (gists : List Gist) : StitchResult :=
  let ord := stitchOrder secs edges
  let summary := greedyFill tok budget (orderedGists ord.1 gists) 0 0
  { summary := summary
    coverage := coverageOf secs gists summary
    cyclicFallback := ord.2
    reason :=
      if summary.isEmpty && !gists.isEmpty then some .BudgetTooSmall
      else none }

/-- Section ids represented in a stitch result's summary. -/
def includedSecs (r : StitchResult) : List Nat :=
  r.summary.map (fun u => u.gist.secId)

end Docustitch

namespace Docustitch

/-! ## Stitcher lemmas -/

theorem greedyFill_budget (tok : String → Nat) (budget : Nat)
    (gs : List Gist) (used rank : Nat) (h : used ≤ budget) :
    used + ((greedyFill tok budget gs used rank).map
      (fun u => tok u.gist.text)).sum ≤ budget := by
  induction gs generalizing used rank with
  | nil => simpa using h
  | cons g gs ih =>
    unfold greedyFill
    by_cases hfit : used + tok g.text ≤ budget
    · simp only [hfit, if_true, List.map_cons, List.sum_cons]
      have := ih (used + tok g.text) (rank + 1) hfit
      omega
    · simp only [hfit, if_false, List.map_nil, List.sum_nil]
      omega

theorem greedyFill_mono (tok : String → Nat) (B1 B2 : Nat) (hB : B1 ≤ B2)
    (gs : List Gist) (used rank : Nat) (u : StitchedUnit) :
    u ∈ greedyFill tok B1 gs used rank → u ∈ greedyFill tok B2 gs used rank := by
  induction gs generalizing used rank with
  | nil => intro h; simpa using h
  | cons g gs ih =>
    intro h
    unfold greedyFill at h ⊢
    by_cases hfit : used + tok g.text ≤ B1
    · have hfit2 : used + tok g.text ≤ B2 := le_trans hfit hB
      simp only [hfit, if_true] at h
      simp only [hfit2, if_true]
      rcases List.mem_cons.mp h with h | h
      · exact List.mem_cons.mpr (Or.inl h)
      · exact List.mem_cons.mpr (Or.inr (ih _ _ h))
    · simp only [hfit, if_false] at h
      exact absurd h (List.not_mem_nil u)

theorem mem_of_mem_orderedGists (ord : List Nat) (gists : List Gist)
    (g : Gist) (h : g ∈ orderedGists ord gists) : g ∈ gists := by
  rw [orderedGists, List.mem_flatMap] at h
  obtain ⟨s, _, hg⟩ := h
  have hmem := (List.perm_insertionSort (fun g h => g.pos ≤ h.pos)
    (gists.filter (fun g => g.secId == s))).mem_iff.mp hg
  exact List.mem_of_mem_filter hmem

end Docustitch

namespace Docustitch

theorem kahn_mem (edges : List (Nat × Nat)) (fuel : Nat) :
    ∀ (remaining : List Nat) (x : Nat),
      x ∈ (kahn edges fuel remaining).1 ↔ x ∈ remaining := by
  induction fuel with
  | zero => intro remaining x; exact Iff.rfl
  | succ k ih =>
    intro remaining x
    unfold kahn
    cases hf : remaining.filter (noIncomingFrom edges remaining) with
    | nil => exact Iff.rfl
    | cons v rest =>
      simp only []
      constructor
      · intro h
        rcases List.mem_cons.mp h with h | h
        · have hv : v ∈ remaining :=
            List.mem_of_mem_filter (hf ▸ List.mem_cons_self v rest)
          exact h ▸ hv
        · exact (List.erase_sublist v remaining).subset ((ih _ x).mp h)
      · intro h
        by_cases hxv : x = v
        · exact List.mem_cons.mpr (Or.inl hxv)
        · exact List.mem_cons.mpr
            (Or.inr ((ih _ x).mpr ((List.mem_erase_of_ne hxv).mpr h)))

theorem kahn_respects (edges : List (Nat × Nat)) (fuel : Nat) :
    ∀ (remaining : List Nat) (u v : Nat),
      (kahn edges fuel remaining).2 = false → (u, v) ∈ edges →
      u ∈ remaining → v ∈ remaining →
      before u v (kahn edges fuel remaining).1 := by
  induction fuel with
  | zero =>
    intro remaining u v hflag he hu hv
    exfalso
    unfold kahn at hflag
    simp only [Bool.not_eq_false', List.isEmpty_iff] at hflag
    rw [hflag] at hu
    exact List.not_mem_nil u hu
  | succ k ih =>
    intro remaining u v hflag he hu hv
    unfold kahn at hflag ⊢
    cases hf : remaining.filter (noIncomingFrom edges remaining) with
    | nil =>
      rw [hf] at hflag
      simp only [Bool.not_eq_false', List.isEmpty_iff] at hflag
      rw [hflag] at hu
      exact absurd hu (List.not_mem_nil u)
    | cons w rest =>
      rw [hf] at hflag
      have hw_filter : w ∈ remaining.filter (noIncomingFrom edges remaining) :=
        hf ▸ List.mem_cons_self w rest
      have hw_ni : noIncomingFrom edges remaining w = true :=
        List.of_mem_filter hw_filter
      simp only []
      by_cases hvw : v = w
      · exfalso
        unfold noIncomingFrom at hw_ni
        rw [List.all_eq_true] at hw_ni
        have hcontra := hw_ni (u, v) he
        simp only [hvw, beq_self_eq_true, Bool.true_and,
          Bool.not_eq_true'] at hcontra
        unfold List.contains at hcontra
        rw [List.elem_iff.mpr hu] at hcontra
        simp at hcontra
      · by_cases huw : u = w
        · refine Or.inl ⟨huw.symm, ?_⟩
          exact (kahn_mem edges k _ v).mpr ((List.mem_erase_of_ne hvw).mpr hv)
        · exact Or.inr (ih _ u v hflag he
            ((List.mem_erase_of_ne huw).mpr hu)
            ((List.mem_erase_of_ne hvw).mpr hv))

end Docustitch

namespace Docustitch

/-- C1: for every document, budget and injected token counter, the sum
of the token counts of the passages in the produced StitchedSummary is
at most the requested budget. -/
theorem stitch_within_budget (tok : String → Nat) (budget : Nat)
    (secs : List Nat) (edges : List (Nat × Nat)) (gists : List Gist) :
    (((stitch tok budget secs edges gists).summary).map
      (fun u => tok u.gist.text)).sum ≤ budget := by
  have h := greedyFill_budget tok budget
    (orderedGists (stitchOrder secs edges).1 gists) 0 0 (Nat.zero_le budget)
  simpa [stitch] using h

/-- C4: with the gist candidates unchanged, raising the budget can only
grow the set of sections included in the summary — every section
included at the smaller budget is included at the larger one. -/
theorem coverage_monotone (tok : String → Nat) (B1 B2 : Nat)
    (secs : List Nat) (edges : List (Nat × Nat)) (gists : List Gist)
    (h : B1 < B2) :
    ∀ s ∈ includedSecs (stitch tok B1 secs edges gists),
      s ∈ includedSecs (stitch tok B2 secs edges gists) := by
  intro s hs
  simp only [includedSecs, stitch, List.mem_map] at hs ⊢
  obtain ⟨u, hu, hsu⟩ := hs
  exact ⟨u, greedyFill_mono tok B1 B2 (le_of_lt h) _ _ _ u hu, hsu⟩

/-- Witness for C4: a one-section document whose gist costs one token is
included at budget 2 because it is included at budget 1. -/
theorem coverage_monotone_witness :
    0 ∈ includedSecs (stitch (fun _ => 1) 2 [0] []
      [{ secId := 0, pos := 0, text := "x" }]) :=
  coverage_monotone (fun _ => 1) 1 2 [0] []
    [{ secId := 0, pos := 0, text := "x" }] (by decide) 0 (by decide)

/-- C6: when the budget is below the token count of every gist (budget
0 included), the stitcher returns an empty summary, reports
`BudgetTooSmall` as the reason, and the coverage record marks every
section excluded for budget; the stitcher is a total function, so no
error is raised. -/
theorem stitch_budget_too_small (tok : String → Nat) (budget : Nat)
    (secs : List Nat) (edges : List (Nat × Nat)) (gists : List Gist)
    (hne : gists ≠ [])
    (hbig : ∀ g ∈ gists, budget < tok g.text)
    (hcov : ∀ s ∈ secs, ∃ g ∈ gists, g.secId = s) :
    (stitch tok budget secs edges gists).summary = [] ∧
    (stitch tok budget secs edges gists).reason = some .BudgetTooSmall ∧
    ∀ p ∈ (stitch tok budget secs edges gists).coverage,
      p.2 = CovStatus.excludedBudget := by
  have hsum : greedyFill tok budget
      (orderedGists (stitchOrder secs edges).1 gists) 0 0 = [] := by
    cases hog : orderedGists (stitchOrder secs edges).1 gists with
    | nil => rfl
    | cons g gs =>
      have hg : g ∈ gists := mem_of_mem_orderedGists _ _ _
        (hog ▸ List.mem_cons_self g gs)
      have hbg := hbig g hg
      unfold greedyFill
      rw [if_neg (by omega)]
  refine ⟨by simp [stitch, hsum], ?_, ?_⟩
  · have hgne : gists.isEmpty = false := by
      cases gists with
      | nil => exact absurd rfl hne
      | cons a as => rfl
    simp [stitch, hsum, hgne]
  · intro p hp
    simp only [stitch, coverageOf, hsum, List.mem_map] at hp
    obtain ⟨s, hs, hps⟩ := hp
    have hany : gists.any (fun g => g.secId == s) = true := by
      obtain ⟨g, hg, hgs⟩ := hcov s hs
      exact List.any_eq_true.mpr ⟨g, hg, by simp [hgs]⟩
    rw [← hps]
    simp [hany]

/-- Witness for C6: budget 0 with a single one-token gist yields the
empty summary with the `BudgetTooSmall` reason. -/
theorem stitch_budget_too_small_witness :
    (stitch (fun _ => 1) 0 [0] []
      [{ secId := 0, pos := 0, text := "x" }]).summary = [] ∧
    (stitch (fun _ => 1) 0 [0] []
      [{ secId := 0, pos := 0, text := "x" }]).reason =
        some ErrClass.BudgetTooSmall :=
  have h := stitch_budget_too_small (fun _ => 1) 0 [0] []
    [{ secId := 0, pos := 0, text := "x" }]
    (by decide) (by decide) (by decide)
  ⟨h.1, h.2.1⟩

/-- Gists for the three-section example of the spec. -/
def exampleGists : List Gist :=
  [{ secId := 0, pos := 0, text := "aa" },
   { secId := 1, pos := 1, text := "bb" },
   { secId := 2, pos := 2, text := "cc" }]

/-- C3: whenever the cyclic-fallback flag is not reported, the
stitcher's waypoint order respects every dependency edge (a section
never precedes a section on the source side of an edge into it); and on
the three-section document with edges 0→1 and 1→2 and an ample budget
the output order is 0, 1, 2 with full coverage and no fallback. -/
theorem stitch_order_respects_graph :
    (∀ (secs : List Nat) (edges : List (Nat × Nat)) (u v : Nat),
      (stitchOrder secs edges).2 = false → (u, v) ∈ edges →
      u ∈ secs → v ∈ secs → before u v (stitchOrder secs edges).1) ∧
    ((stitchOrder [0, 1, 2] [(0, 1), (1, 2)]).1 = [0, 1, 2] ∧
     includedSecs (stitch String.length 1000 [0, 1, 2] [(0, 1), (1, 2)]
       exampleGists) = [0, 1, 2] ∧
     (stitch String.length 1000 [0, 1, 2] [(0, 1), (1, 2)]
       exampleGists).coverage =
       [(0, .included), (1, .included), (2, .included)] ∧
     (stitch String.length 1000 [0, 1, 2] [(0, 1), (1, 2)]
       exampleGists).cyclicFallback = false) := by
  refine ⟨?_, rfl, rfl, rfl, rfl⟩
  intro secs edges u v hflag he hu hv
  exact kahn_respects edges secs.length secs u v hflag he hu hv

/-- Witness for C3: on the example graph, section 0 precedes section 1
in the stitcher's order. -/
theorem stitch_order_respects_graph_witness :
    before 0 1 (stitchOrder [0, 1, 2] [(0, 1), (1, 2)]).1 :=
  stitch_order_respects_graph.1 [0, 1, 2] [(0, 1), (1, 2)] 0 1
    (by decide) (by decide) (by decide) (by decide)

end Docustitch

namespace Docustitch

/-! ## Core model: MMR gist extraction

Modelled from the spec (§4.3, `pipeline/build_gists.py` is not under
the shipped sources): a Maximal-Marginal-Relevance loop over one
waypoint's candidate passages.  Candidates are identified by their
document-order position; `rel` is the externally supplied relevance,
`sim` the pairwise similarity, `lam` the relevance/diversity
trade-off. -/

/-- Maximal similarity of candidate `c` to the already selected
passages; 0 when nothing is selected yet. -/
def maxSim (sim : Nat → Nat → ℚ) (c : Nat) : List Nat → ℚ
  | [] => 0
  | s :: ss => max (sim c s) (maxSim sim c ss)

/-- MMR marginal score of candidate `c` against the current
selection. -/
def marginal (lam : ℚ) (sim : Nat → Nat → ℚ) (rel : Nat → ℚ)
    (selected : List Nat) (c : Nat) : ℚ :=
  lam * rel c - (1 - lam) * maxSim sim c selected

/-- Candidate with the maximal score; on ties the earlier candidate of
the list is kept, so for a list in document order the earlier section
wins. -/
def pickBest (score : Nat → ℚ) : List Nat → Option Nat
  | [] => none
  | c :: cs =>
    match pickBest score cs with
    | none => some c
    | some b => if score c < score b then some b else some c

/-- Modelled from the spec: the MMR selection loop of §4.3.  `cap` is
the per-waypoint passage cap; the loop stops when the cap is reached,
when no candidate remains, or when the best remaining marginal score is
non-positive. -/
def mmrSelect (lam : ℚ) (sim : Nat → Nat → ℚ) (rel : Nat → ℚ) :
    Nat → List Nat → List Nat → List Nat
  | 0, _, _ => []
  | k + 1, remaining, selected =>
    match pickBest (marginal lam sim rel selected) remaining with
    | none => []
    | some c =>
      if marginal lam sim rel selected c ≤ 0 then []
      else c :: mmrSelect lam sim rel k (remaining.erase c) (c :: selected)

/-- Valid MMR run: from cap `k`, candidate pool `remaining` and current
selection `selected`, the list of picks is produced by repeatedly
taking a remaining candidate of positive marginal score that maximizes
the marginal score, breaking ties towards the earlier candidate, and
stopping exactly when the cap is reached or no remaining candidate has
positive marginal score. -/
inductive IsMMRRun (lam : ℚ) (sim : Nat → Nat → ℚ) (rel : Nat → ℚ) :
    Nat → List Nat → List Nat → List Nat → Prop where
  | capReached (remaining selected : List Nat) :
      IsMMRRun lam sim rel 0 remaining selected []
  | noPositive (k : Nat) (remaining selected : List Nat)
      (h : ∀ c ∈ remaining, marginal lam sim rel selected c ≤ 0) :
      IsMMRRun lam sim rel (k + 1) remaining selected []
  | pick (k : Nat) (remaining selected : List Nat) (c : Nat)
      (out : List Nat)
      (hmem : c ∈ remaining)
      (hpos : 0 < marginal lam sim rel selected c)
      (hmax : ∀ d ∈ remaining, marginal lam sim rel selected d ≤
        marginal lam sim rel selected c)
      (htie : ∀ d ∈ remaining, marginal lam sim rel selected d =
        marginal lam sim rel selected c → c ≤ d)
      (hrest : IsMMRRun lam sim rel k (remaining.erase c) (c :: selected) out) :
      IsMMRRun lam sim rel (k + 1) remaining selected (c :: out)

theorem pickBest_eq_none (score : Nat → ℚ) (l : List Nat) :
    pickBest score l = none ↔ l = [] := by
  cases l with
  | nil => simp [pickBest]
  | cons c cs =>
    simp only [pickBest]
    cases pickBest score cs with
    | none => simp
    | some b =>
      by_cases h : score c < score b <;> simp [h]

theorem pickBest_mem (score : Nat → ℚ) (l : List Nat) (c : Nat)
    (h : pickBest score l = some c) : c ∈ l := by
  induction l generalizing c with
  | nil => exact absurd h (by simp [pickBest])
  | cons a as ih =>
    rw [pickBest] at h
    cases hpb : pickBest score as with
    | none =>
      rw [hpb] at h
      have h2 : some a = some c := h
      exact List.mem_cons.mpr (Or.inl (Option.some.inj h2).symm)
    | some b =>
      rw [hpb] at h
      have h2 : (if score a < score b then some b else some a) = some c := h
      by_cases hlt : score a < score b
      · rw [if_pos hlt] at h2
        exact List.mem_cons.mpr (Or.inr (ih c (hpb.trans h2)))
      · rw [if_neg hlt] at h2
        exact List.mem_cons.mpr (Or.inl (Option.some.inj h2).symm)

theorem pickBest_max (score : Nat → ℚ) (l : List Nat) (c : Nat)
    (h : pickBest score l = some c) :
    ∀ d ∈ l, score d ≤ score c := by
  induction l generalizing c with
  | nil => exact absurd h (by simp [pickBest])
  | cons a as ih =>
    rw [pickBest] at h
    cases hpb : pickBest score as with
    | none =>
      rw [hpb] at h
      have h2 : some a = some c := h
      have has : as = [] := (pickBest_eq_none score as).mp hpb
      subst has
      intro d hd
      rw [List.mem_singleton] at hd
      rw [hd, ← Option.some.inj h2]
    | some b =>
      rw [hpb] at h
      have h2 : (if score a < score b then some b else some a) = some c := h
      by_cases hlt : score a < score b
      · rw [if_pos hlt] at h2
        have hc : b = c := Option.some.inj h2
        subst hc
        intro d hd
        rcases List.mem_cons.mp hd with hd | hd
        · exact hd ▸ le_of_lt hlt
        · exact ih b hpb d hd
      · rw [if_neg hlt] at h2
        have hc : a = c := Option.some.inj h2
        subst hc
        intro d hd
        rcases List.mem_cons.mp hd with hd | hd
        · exact hd ▸ le_refl _
        · exact le_trans (ih b hpb d hd) (not_lt.mp hlt)

theorem pickBest_tie (score : Nat → ℚ) (l : List Nat) (c : Nat)
    (hsorted : l.Pairwise (· < ·))
    (h : pickBest score l = some c) :
    ∀ d ∈ l, score d = score c → c ≤ d := by
  induction l generalizing c with
  | nil => exact absurd h (by simp [pickBest])
  | cons a as ih =>
    rw [pickBest] at h
    have hsa := (List.pairwise_cons.mp hsorted).1
    have hsas := (List.pairwise_cons.mp hsorted).2
    cases hpb : pickBest score as with
    | none =>
      rw [hpb] at h
      have h2 : some a = some c := h
      have hc : a = c := Option.some.inj h2
      subst hc
      intro d hd _
      rcases List.mem_cons.mp hd with hd | hd
      · exact hd ▸ le_refl _
      · exact le_of_lt (hsa d hd)
    | some b =>
      rw [hpb] at h
      have h2 : (if score a < score b then some b else some a) = some c := h
      by_cases hlt : score a < score b
      · rw [if_pos hlt] at h2
        have hc : b = c := Option.some.inj h2
        subst hc
        intro d hd heq
        rcases List.mem_cons.mp hd with hd | hd
        · exact absurd (hd ▸ heq) (ne_of_lt (hd ▸ hlt))
        · exact ih b hsas hpb d hd heq
      · rw [if_neg hlt] at h2
        have hc : a = c := Option.some.inj h2
        subst hc
        intro d hd _
        rcases List.mem_cons.mp hd with hd | hd
        · exact hd ▸ le_refl _
        · exact le_of_lt (hsa d hd)

end Docustitch

namespace Docustitch

/-- C2: for a candidate pool listed in (strictly increasing) document
order, the gist-extraction loop is a valid MMR run — it repeatedly
selects the not-yet-selected candidate maximizing the marginal score
`lam * rel c - (1 - lam) * maxSim c selected`, never selects a
candidate with non-positive marginal score, stops when the per-waypoint
cap is reached or no remaining candidate has positive marginal score,
and breaks score ties towards the earlier candidate — and its output
never exceeds the cap. -/
theorem mmrSelect_spec (lam : ℚ) (sim : Nat → Nat → ℚ) (rel : Nat → ℚ)
    (cap : Nat) :
    ∀ (remaining selected : List Nat), remaining.Pairwise (· < ·) →
      IsMMRRun lam sim rel cap remaining selected
        (mmrSelect lam sim rel cap remaining selected) ∧
      (mmrSelect lam sim rel cap remaining selected).length ≤ cap := by
  induction cap with
  | zero =>
    intro remaining selected _
    exact ⟨IsMMRRun.capReached remaining selected, le_refl 0⟩
  | succ k ih =>
    intro remaining selected hsorted
    cases hpb : pickBest (marginal lam sim rel selected) remaining with
    | none =>
      have hunf : mmrSelect lam sim rel (k + 1) remaining selected = [] := by
        rw [mmrSelect, hpb]
      have hrem : remaining = [] :=
        (pickBest_eq_none (marginal lam sim rel selected) remaining).mp hpb
      subst hrem
      rw [hunf]
      exact ⟨IsMMRRun.noPositive k [] selected (by intro c hc; cases hc),
        by simp⟩
    | some c =>
      by_cases hle : marginal lam sim rel selected c ≤ 0
      · have hunf : mmrSelect lam sim rel (k + 1) remaining selected = [] := by
          rw [mmrSelect, hpb]
          exact if_pos hle
        rw [hunf]
        refine ⟨IsMMRRun.noPositive k remaining selected ?_, by simp⟩
        intro d hd
        exact le_trans (pickBest_max _ remaining c hpb d hd) hle
      · have hunf : mmrSelect lam sim rel (k + 1) remaining selected =
            c :: mmrSelect lam sim rel k (remaining.erase c) (c :: selected) := by
          rw [mmrSelect, hpb]
          exact if_neg hle
        rw [hunf]
        have hsorted2 : (remaining.erase c).Pairwise (· < ·) :=
          List.Pairwise.sublist (List.erase_sublist c remaining) hsorted
        have hrec := ih (remaining.erase c) (c :: selected) hsorted2
        refine ⟨IsMMRRun.pick k remaining selected c _
          (pickBest_mem _ remaining c hpb)
          (by push_neg at hle; exact hle)
          (pickBest_max _ remaining c hpb)
          (pickBest_tie _ remaining c hsorted hpb)
          hrec.1, ?_⟩
        simpa using Nat.succ_le_succ hrec.2

/-- Witness for C2: a two-candidate pool with similarity 0.95,
relevance 1 and trade-off 0.7 yields a valid MMR run of at most two
picks. -/
theorem mmrSelect_spec_witness :
    IsMMRRun (7/10) (fun _ _ => 95/100) (fun _ => 1) 2 [0, 1] []
      (mmrSelect (7/10) (fun _ _ => 95/100) (fun _ => 1) 2 [0, 1] []) ∧
    (mmrSelect (7/10) (fun _ _ => 95/100) (fun _ => 1) 2 [0, 1] []).length
      ≤ 2 :=
  mmrSelect_spec (7/10) (fun _ _ => 95/100) (fun _ => 1) 2 [0, 1] []
    (by decide)

end Docustitch

namespace Docustitch

/-! ## Core model: waypoint selector

Modelled from the spec (§4.2, `pipeline/build_waypoints.py` is not
under the shipped sources): greedily take the top-scored sections,
skipping a section whose sibling under the same parent is already
selected unless the importance gap exceeds a threshold, always
including the document's root-level overview section when one exists;
ties in importance are broken by document order. -/

/-- A section with its computed importance score. -/
structure ScoredSection where
  sid : Nat
  ordinal : Nat
  parent : Option Nat
  importance : ℚ
deriving DecidableEq, Repr

/-- Ranking order of the selector: higher importance first, document
order (smaller ordinal) on importance ties. -/
def rankRel (s t : ScoredSection) : Prop :=
  t.importance < s.importance ∨
    (s.importance = t.importance ∧ s.ordinal ≤ t.ordinal)

instance : DecidableRel rankRel := fun s t => by
  unfold rankRel; infer_instance

instance : IsTotal ScoredSection rankRel := by
  constructor
  intro a b
  rcases lt_trichotomy a.importance b.importance with h | h | h
  · exact Or.inr (Or.inl h)
  · rcases le_total a.ordinal b.ordinal with ho | ho
    · exact Or.inl (Or.inr ⟨h, ho⟩)
    · exact Or.inr (Or.inr ⟨h.symm, ho⟩)
  · exact Or.inl (Or.inl h)

instance : IsTrans ScoredSection rankRel := by
  constructor
  intro a b c hab hbc
  rcases hab with hab | ⟨hab1, hab2⟩
  · rcases hbc with hbc | ⟨hbc1, hbc2⟩
    · exact Or.inl (lt_trans hbc hab)
    · exact Or.inl (hbc1 ▸ hab)
  · rcases hbc with hbc | ⟨hbc1, hbc2⟩
    · exact Or.inl (hab1 ▸ hbc)
    · exact Or.inr ⟨hab1.trans hbc1, le_trans hab2 hbc2⟩

/-- Document order on sections. -/
def ordRel (s t : ScoredSection) : Prop := s.ordinal ≤ t.ordinal

instance : DecidableRel ordRel := fun s t => by
  unfold ordRel; infer_instance

instance : IsTotal ScoredSection ordRel :=
  ⟨fun a b => le_total a.ordinal b.ordinal⟩

instance : IsTrans ScoredSection ordRel :=
  ⟨fun _ _ _ hab hbc => le_trans hab hbc⟩

/-- Sections ranked by importance, ties by document order. -/
def rankSort (secs : List ScoredSection) : List ScoredSection :=
  List.insertionSort rankRel secs

/-- Sections in document order. -/
def docOrder (secs : List ScoredSection) : List ScoredSection :=
  List.insertionSort ordRel secs

/-- `s` clashes with an already selected sibling: same (existing)
parent and importance gap within the spread threshold. -/
def siblingConflict (thr : ℚ) (s t : ScoredSection) : Bool :=
  match s.parent, t.parent with
  | some p, some q => p == q && decide (|s.importance - t.importance| ≤ thr)
  | _, _ => false

/-- The spread rule admits `s` against the current selection. -/
def spreadOk (thr : ℚ) (sel : List ScoredSection)
    (s : ScoredSection) : Bool :=
  sel.all fun t => !siblingConflict thr s t

/-- Greedy walk over the ranked sections: take each admissible section
until the count is exhausted. -/
def selectGreedy (thr : ℚ) :
    Nat → List ScoredSection → List ScoredSection → List ScoredSection
  | 0, _, _ => []
  | _ + 1, [], _ => []
  | k + 1, s :: rest, sel =>
    if spreadOk thr sel s then s :: selectGreedy thr k rest (s :: sel)
    else selectGreedy thr (k + 1) rest sel
termination_by _k l _sel => l.length

/-- The document's root-level overview section: the ordinally first
section, when it sits at root level (no parent). -/
def rootOverview (secs : List ScoredSection) : Option ScoredSection :=
  match docOrder secs with
  | [] => none
  | s :: _ => if s.parent = none then some s else none

/-- Modelled from the spec: the waypoint selector of §4.2. -/
def selectWaypoints (cnt : Nat) (thr : ℚ)
    (secs : List ScoredSection) : List ScoredSection :=
  if cnt = 0 then []
  else
    match rootOverview secs with
    | some r =>
      r :: selectGreedy thr (cnt - 1)
        ((rankSort secs).filter (fun s => s.sid != r.sid)) [r]
    | none => selectGreedy thr cnt (rankSort secs) []

end Docustitch

namespace Docustitch

theorem selectGreedy_length (thr : ℚ) :
    ∀ (l : List ScoredSection) (k : Nat) (sel : List ScoredSection),
      (selectGreedy thr k l sel).length ≤ k := by
  intro l
  induction l with
  | nil =>
    intro k sel
    cases k with
    | zero => simp [selectGreedy]
    | succ k => simp [selectGreedy]
  | cons s rest ih =>
    intro k sel
    cases k with
    | zero => simp [selectGreedy]
    | succ k =>
      rw [selectGreedy]
      by_cases hok : spreadOk thr sel s = true
      · rw [if_pos hok]
        simpa using Nat.succ_le_succ (ih k (s :: sel))
      · rw [if_neg hok]
        exact ih (k + 1) sel

theorem selectGreedy_sublist (thr : ℚ) :
    ∀ (l : List ScoredSection) (k : Nat) (sel : List ScoredSection),
      (selectGreedy thr k l sel).Sublist l := by
  intro l
  induction l with
  | nil =>
    intro k sel
    cases k with
    | zero => simp [selectGreedy]
    | succ k => simp [selectGreedy]
  | cons s rest ih =>
    intro k sel
    cases k with
    | zero => simp [selectGreedy]
    | succ k =>
      rw [selectGreedy]
      by_cases hok : spreadOk thr sel s = true
      · rw [if_pos hok]
        exact List.Sublist.cons₂ s (ih k (s :: sel))
      · rw [if_neg hok]
        exact List.Sublist.cons s (ih (k + 1) sel)

end Docustitch

namespace Docustitch

theorem rankSort_tiebreak (secs : List ScoredSection)
    (hord : (secs.map ScoredSection.ordinal).Nodup) :
    (rankSort secs).Pairwise
      (fun s t => s.importance = t.importance → s.ordinal < t.ordinal) := by
  have hsorted : (rankSort secs).Pairwise rankRel :=
    List.sorted_insertionSort rankRel secs
  have hne_secs : secs.Pairwise (fun s t => s.ordinal ≠ t.ordinal) := by
    rw [List.Nodup, List.pairwise_map] at hord
    exact hord
  have hperm : (rankSort secs).Perm secs :=
    List.perm_insertionSort rankRel secs
  have hne : (rankSort secs).Pairwise (fun s t => s.ordinal ≠ t.ordinal) :=
    (List.Perm.pairwise_iff (fun h => h.symm) hperm).mpr hne_secs
  refine (hsorted.and hne).imp ?_
  intro a b hab himp
  rcases hab.1 with hlt | ⟨heq, hle⟩
  · exact absurd hlt (by rw [himp]; exact lt_irrefl _)
  · exact lt_of_le_of_ne hle hab.2

theorem rootOverview_min (secs : List ScoredSection) (r : ScoredSection)
    (h : rootOverview secs = some r) :
    r ∈ secs ∧ ∀ t ∈ secs, r.ordinal ≤ t.ordinal := by
  unfold rootOverview at h
  cases hdo : docOrder secs with
  | nil => rw [hdo] at h; exact absurd h (by simp)
  | cons s rest =>
    rw [hdo] at h
    have h2 : (if s.parent = none then some s else none) = some r := h
    by_cases hp : s.parent = none
    · rw [if_pos hp] at h2
      have hsr : s = r := Option.some.inj h2
      subst hsr
      have hperm : (docOrder secs).Perm secs :=
        List.perm_insertionSort ordRel secs
      constructor
      · exact hperm.subset (hdo ▸ List.mem_cons_self s rest)
      · intro t ht
        have ht2 : t ∈ docOrder secs := hperm.mem_iff.mpr ht
        rw [hdo] at ht2
        rcases List.mem_cons.mp ht2 with ht2 | ht2
        · rw [ht2]
        · have hsorted : List.Sorted ordRel (docOrder secs) :=
            List.sorted_insertionSort ordRel secs
          rw [hdo] at hsorted
          exact List.rel_of_sorted_cons hsorted t ht2
    · rw [if_neg hp] at h2
      exact absurd h2 (by simp)

/-- C5: waypoint selection is a deterministic function of the scored
sections and parameters; its output never exceeds the configured count;
and when the document's ordinals are distinct, equal-importance
waypoints appear in document order, the earlier section first. -/
theorem selectWaypoints_spec :
    (∀ (cnt1 cnt2 : Nat) (thr1 thr2 : ℚ)
        (g1 g2 : List ScoredSection),
      cnt1 = cnt2 → thr1 = thr2 → g1 = g2 →
      selectWaypoints cnt1 thr1 g1 = selectWaypoints cnt2 thr2 g2) ∧
    (∀ (cnt : Nat) (thr : ℚ) (secs : List ScoredSection),
      (selectWaypoints cnt thr secs).length ≤ cnt) ∧
    (∀ (cnt : Nat) (thr : ℚ) (secs : List ScoredSection),
      (secs.map ScoredSection.ordinal).Nodup →
      (selectWaypoints cnt thr secs).Pairwise
        (fun s t => s.importance = t.importance →
          s.ordinal < t.ordinal)) := by
  refine ⟨?_, ?_, ?_⟩
  · intro cnt1 cnt2 thr1 thr2 g1 g2 h1 h2 h3
    rw [h1, h2, h3]
  · intro cnt thr secs
    unfold selectWaypoints
    by_cases hc : cnt = 0
    · rw [if_pos hc, hc]
      exact le_refl 0
    · rw [if_neg hc]
      cases hro : rootOverview secs with
      | some r =>
        show (r :: selectGreedy thr (cnt - 1)
          ((rankSort secs).filter (fun s => s.sid != r.sid)) [r]).length ≤ cnt
        have h := selectGreedy_length thr
          ((rankSort secs).filter (fun s => s.sid != r.sid)) (cnt - 1) [r]
        simp only [List.length_cons]
        omega
      | none =>
        show (selectGreedy thr cnt (rankSort secs) []).length ≤ cnt
        exact selectGreedy_length thr (rankSort secs) cnt []
  · intro cnt thr secs hord
    have htb := rankSort_tiebreak secs hord
    unfold selectWaypoints
    by_cases hc : cnt = 0
    · rw [if_pos hc]
      exact List.Pairwise.nil
    · rw [if_neg hc]
      cases hro : rootOverview secs with
      | none =>
        show (selectGreedy thr cnt (rankSort secs) []).Pairwise _
        exact List.Pairwise.sublist
          (selectGreedy_sublist thr (rankSort secs) cnt []) htb
      | some r =>
        show (r :: selectGreedy thr (cnt - 1)
          ((rankSort secs).filter (fun s => s.sid != r.sid)) [r]).Pairwise _
        rw [List.pairwise_cons]
        have hsub := selectGreedy_sublist thr
          ((rankSort secs).filter (fun s => s.sid != r.sid)) (cnt - 1) [r]
        constructor
        · intro t ht _himp
          have htf : t ∈ (rankSort secs).filter (fun s => s.sid != r.sid) :=
            hsub.subset ht
          have htr : t ∈ rankSort secs := List.mem_of_mem_filter htf
          have htne : t.sid ≠ r.sid := by
            have hflt := List.of_mem_filter htf
            simpa using hflt
          have hts : t ∈ secs :=
            (List.perm_insertionSort rankRel secs).mem_iff.mp htr
          obtain ⟨hrmem, hrmin⟩ := rootOverview_min secs r hro
          refine lt_of_le_of_ne (hrmin t hts) ?_
          intro heq
          have hrt : r = t := List.inj_on_of_nodup_map hord hrmem hts heq
          exact htne (by rw [hrt])
        · exact List.Pairwise.sublist
            (hsub.trans (List.filter_sublist (rankSort secs))) htb

/-- Witness for C5: two equally important root sections are returned in
document order. -/
theorem selectWaypoints_spec_witness :
    (selectWaypoints 2 0
      [{ sid := 0, ordinal := 0, parent := none, importance := 1 },
       { sid := 1, ordinal := 1, parent := none, importance := 1 }]).Pairwise
      (fun s t => s.importance = t.importance → s.ordinal < t.ordinal) :=
  selectWaypoints_spec.2.2 2 0
    [{ sid := 0, ordinal := 0, parent := none, importance := 1 },
     { sid := 1, ordinal := 1, parent := none, importance := 1 }]
    (by decide)

end Docustitch

namespace Docustitch

/-! ## Core model: graph builder and run policy

Modelled from the spec (§4.1 and §7; `pipeline/build_graph.py`,
`pipeline/build_implicit.py` and `pipeline/merge_graph.py` are not
under the shipped sources): sections and citation edges are validated
up front (missing required fields are fatal `MalformedInput`); orphan
citations are dropped and reported; implicit edges are materialized
only at or above the similarity floor; a graph with no edges at all is
the recovered `DegenerateGraph` case, falling back to lexicon-only
importance. -/

/-- Raw section as supplied by the upstream parser; every field may be
missing. -/
structure RawSection where
  sid : Option Nat
  heading : Option String
  text : Option String
  ordinal : Option Nat
deriving DecidableEq, Repr

/-- Raw citation edge as supplied by the upstream extractor. -/
structure RawCitation where
  src : Option Nat
  tgt : Option Nat
deriving DecidableEq, Repr

/-- Weighted edge of the merged dependency graph. -/
structure GraphEdge where
  src : Nat
  tgt : Nat
  weight : ℚ
deriving DecidableEq, Repr

/-- A section with any required field missing is malformed. -/
def validateSection (r : RawSection) : Except ErrClass (Nat × Nat) :=
  match r.sid, r.heading, r.text, r.ordinal with
  | some i, some _, some _, some o => .ok (i, o)
  | _, _, _, _ => .error .MalformedInput

/-- Validate all sections; the only possible error is
`MalformedInput`. -/
def validateSections : List RawSection → Except ErrClass (List (Nat × Nat))
  | [] => .ok []
  | r :: rs =>
    match validateSection r, validateSections rs with
    | .ok v, .ok vs => .ok (v :: vs)
    | .error e, _ => .error e
    | .ok _, .error e => .error e

/-- A citation edge with a missing endpoint is malformed. -/
def validateCitation (c : RawCitation) : Except ErrClass (Nat × Nat) :=
  match c.src, c.tgt with
  | some s, some t => .ok (s, t)
  | _, _ => .error .MalformedInput

/-- Validate all citation edges; the only possible error is
`MalformedInput`. -/
def validateCitations : List RawCitation → Except ErrClass (List (Nat × Nat))
  | [] => .ok []
  | c :: cs =>
    match validateCitation c, validateCitations cs with
    | .ok v, .ok vs => .ok (v :: vs)
    | .error e, _ => .error e
    | .ok _, .error e => .error e

/-- The merged graph together with the recovered warnings of the
build. -/
structure BuiltGraph where
  nodes : List Nat
  edges : List GraphEdge
  warnings : List ErrClass
deriving DecidableEq, Repr

/-- Modelled from the spec: merge explicit citation edges (weight
scaled by `alpha`) and implicit similarity edges at or above the floor
(weight scaled by `1 - alpha`); citations touching unknown ids or
forming self-loops are dropped as orphan references; a graph with no
edges is reported as degenerate. -/
def buildGraph (alpha simFloor : ℚ) (ids : List Nat)
    (cites : List (Nat × Nat)) (sims : List (Nat × Nat × ℚ)) :
    BuiltGraph :=
  let kept := cites.filter fun c =>
    ids.contains c.1 && ids.contains c.2 && c.1 != c.2
  let expl := kept.map fun p =>
    { src := p.1, tgt := p.2, weight := alpha : GraphEdge }
  let keptSims := sims.filter fun s =>
    ids.contains s.1 && ids.contains s.2.1 && s.1 != s.2.1 &&
      decide (simFloor ≤ s.2.2)
  let impl := keptSims.map fun s =>
    { src := s.1, tgt := s.2.1, weight := (1 - alpha) * s.2.2 : GraphEdge }
  let edges := expl ++ impl
  { nodes := ids
    edges := edges
    warnings :=
      (if kept.length < cites.length then [ErrClass.OrphanReference]
       else []) ++
      (if edges.isEmpty then [ErrClass.DegenerateGraph] else []) }

/-- Weighted in-degree of a node. -/
def inDegWeight (edges : List GraphEdge) (v : Nat) : ℚ :=
  ((edges.filter (fun e => e.tgt == v)).map (fun e => e.weight)).sum

/-- Modelled from the spec: linear blend of weighted in-degree, a
configurable centrality measure and the external lexicon weight; a
graph with no edges degrades to lexicon-only scoring. -/
def importanceOf (cIn cCent cLex : ℚ) (cent : List GraphEdge → Nat → ℚ)
    (lex : Nat → ℚ) (g : BuiltGraph) (v : Nat) : ℚ :=
  if g.edges.isEmpty then lex v
  else cIn * inDegWeight g.edges v + cCent * cent g.edges v + cLex * lex v

/-- Output of a core run up to importance scoring. -/
structure CoreOutput where
  graph : BuiltGraph
  importance : Nat → ℚ

/-- Modelled from the spec: the run aborts only on validation failure
(`MalformedInput`); every later condition is recovered into the
output's warnings. -/
def runCore (cIn cCent cLex alpha simFloor : ℚ)
    (cent : List GraphEdge → Nat → ℚ) (lex : Nat → ℚ)
    (raws : List RawSection) (cites : List RawCitation)
    (sims : List (Nat × Nat × ℚ)) : Except ErrClass CoreOutput :=
  match validateSections raws, validateCitations cites with
  | .error e, _ => .error e
  | .ok _, .error e => .error e
  | .ok secs, .ok vcites =>
    let g := buildGraph alpha simFloor (secs.map (fun s => s.1)) vcites sims
    .ok { graph := g, importance := importanceOf cIn cCent cLex cent lex g }

/-- Warnings attached to a run's output (none when the run aborted). -/
def coreWarnings : Except ErrClass CoreOutput → List ErrClass
  | .ok o => o.graph.warnings
  | .error _ => []

/-- Importance scores of a run's output (zero when the run aborted). -/
def coreImportance : Except ErrClass CoreOutput → Nat → ℚ
  | .ok o => o.importance
  | .error _ => fun _ => 0

end Docustitch

namespace Docustitch

theorem validateSection_error (r : RawSection) (e : ErrClass)
    (h : validateSection r = .error e) : e = .MalformedInput := by
  obtain ⟨sid, heading, text, ordinal⟩ := r
  unfold validateSection at h
  cases sid <;> cases heading <;> cases text <;> cases ordinal <;> simp_all

theorem validateSections_error (rs : List RawSection) :
    ∀ e : ErrClass, validateSections rs = .error e →
      e = .MalformedInput := by
  induction rs with
  | nil => intro e h; exact absurd h (by simp [validateSections])
  | cons r rs ih =>
    intro e h
    rw [validateSections] at h
    cases hv : validateSection r with
    | error e2 =>
      rw [hv] at h
      have h2 : Except.error e2 = Except.error e := h
      exact (Except.error.inj h2) ▸ validateSection_error r e2 hv
    | ok v =>
      rw [hv] at h
      cases hr : validateSections rs with
      | error e2 =>
        rw [hr] at h
        have h2 : Except.error e2 = Except.error e := h
        exact (Except.error.inj h2) ▸ ih e2 hr
      | ok vs =>
        rw [hr] at h
        exact absurd h (by simp)

theorem validateCitation_error (c : RawCitation) (e : ErrClass)
    (h : validateCitation c = .error e) : e = .MalformedInput := by
  obtain ⟨src, tgt⟩ := c
  unfold validateCitation at h
  cases src <;> cases tgt <;> simp_all

theorem validateCitations_error (cs : List RawCitation) :
    ∀ e : ErrClass, validateCitations cs = .error e →
      e = .MalformedInput := by
  induction cs with
  | nil => intro e h; exact absurd h (by simp [validateCitations])
  | cons c cs ih =>
    intro e h
    rw [validateCitations] at h
    cases hv : validateCitation c with
    | error e2 =>
      rw [hv] at h
      have h2 : Except.error e2 = Except.error e := h
      exact (Except.error.inj h2) ▸ validateCitation_error c e2 hv
    | ok v =>
      rw [hv] at h
      cases hr : validateCitations cs with
      | error e2 =>
        rw [hr] at h
        have h2 : Except.error e2 = Except.error e := h
        exact (Except.error.inj h2) ▸ ih e2 hr
      | ok vs =>
        rw [hr] at h
        exact absurd h (by simp)

theorem buildGraph_degenerate (alpha simFloor : ℚ) (ids : List Nat)
    (sims : List (Nat × Nat × ℚ))
    (hsim : ∀ s ∈ sims, s.2.2 < simFloor) :
    (buildGraph alpha simFloor ids [] sims).edges = [] ∧
    ErrClass.DegenerateGraph ∈ (buildGraph alpha simFloor ids [] sims).warnings := by
  have hf : List.filter (fun s =>
      ids.contains s.1 && ids.contains s.2.1 && s.1 != s.2.1 &&
      decide (simFloor ≤ s.2.2)) sims = [] := by
    rw [List.filter_eq_nil_iff]
    intro s hs
    have hlt : ¬ simFloor ≤ s.2.2 := not_le.mpr (hsim s hs)
    simp [hlt]
  constructor
  · simp only [buildGraph]
    rw [hf]
    simp
  · simp only [buildGraph]
    rw [hf]
    simp

end Docustitch

namespace Docustitch

/-- C7: of the six error classes only `MalformedInput` is fatal, and a
core run can only abort with `MalformedInput` — every other condition
is recovered into the output's inspectable warnings; in particular a
well-formed document with no citations and no similarity pair above
the floor runs to completion, each section's importance equals its
lexicon weight only, and the degenerate graph is reported. -/
theorem runCore_error_policy :
    (∀ e : ErrClass, fatal e = true ↔ e = ErrClass.MalformedInput) ∧
    (∀ (cIn cCent cLex alpha simFloor : ℚ)
        (cent : List GraphEdge → Nat → ℚ) (lex : Nat → ℚ)
        (raws : List RawSection) (cites : List RawCitation)
        (sims : List (Nat × Nat × ℚ)) (e : ErrClass),
      runCore cIn cCent cLex alpha simFloor cent lex raws cites sims =
        .error e →
      e = ErrClass.MalformedInput) ∧
    (∀ (cIn cCent cLex alpha simFloor : ℚ)
        (cent : List GraphEdge → Nat → ℚ) (lex : Nat → ℚ)
        (raws : List RawSection) (sims : List (Nat × Nat × ℚ))
        (secs : List (Nat × Nat)),
      validateSections raws = .ok secs →
      (∀ s ∈ sims, s.2.2 < simFloor) →
      exceptOk (runCore cIn cCent cLex alpha simFloor cent lex raws [] sims)
          = true ∧
      (∀ v, coreImportance
          (runCore cIn cCent cLex alpha simFloor cent lex raws [] sims) v =
          lex v) ∧
      ErrClass.DegenerateGraph ∈ coreWarnings
        (runCore cIn cCent cLex alpha simFloor cent lex raws [] sims)) := by
  refine ⟨?_, ?_, ?_⟩
  · intro e
    cases e <;> simp [fatal]
  · intro cIn cCent cLex alpha simFloor cent lex raws cites sims e h
    unfold runCore at h
    cases hs : validateSections raws with
    | error e2 =>
      rw [hs] at h
      have h2 : Except.error e2 = Except.error e := h
      exact (Except.error.inj h2) ▸ validateSections_error raws e2 hs
    | ok secs =>
      rw [hs] at h
      cases hc : validateCitations cites with
      | error e2 =>
        rw [hc] at h
        have h2 : Except.error e2 = Except.error e := h
        exact (Except.error.inj h2) ▸ validateCitations_error cites e2 hc
      | ok vcites =>
        rw [hc] at h
        exact absurd h (by simp)
  · intro cIn cCent cLex alpha simFloor cent lex raws sims secs hvs hsim
    have hbg := buildGraph_degenerate alpha simFloor
      (secs.map (fun s => s.1)) sims hsim
    have hrun : runCore cIn cCent cLex alpha simFloor cent lex raws [] sims =
        .ok { graph := buildGraph alpha simFloor
                (secs.map (fun s => s.1)) [] sims
              importance := importanceOf cIn cCent cLex cent lex
                (buildGraph alpha simFloor
                  (secs.map (fun s => s.1)) [] sims) } := by
      unfold runCore
      rw [hvs]
      rfl
    refine ⟨?_, ?_, ?_⟩
    · rw [hrun]; rfl
    · intro v
      rw [hrun]
      show importanceOf cIn cCent cLex cent lex
        (buildGraph alpha simFloor (secs.map (fun s => s.1)) [] sims) v =
        lex v
      unfold importanceOf
      rw [hbg.1]
      rfl
    · rw [hrun]
      show ErrClass.DegenerateGraph ∈
        (buildGraph alpha simFloor (secs.map (fun s => s.1)) [] sims).warnings
      exact hbg.2

/-- Witness for C7: a malformed section aborts with `MalformedInput`
(the fatal class), and a well-formed one-section document with no
edges succeeds with lexicon-only importance and a reported degenerate
graph. -/
theorem runCore_error_policy_witness :
    fatal ErrClass.MalformedInput = true ∧
    exceptOk (runCore 1 1 1 (6/10) (9/10) (fun _ _ => 0) (fun _ => 5)
      [{ sid := some 0, heading := some "h", text := some "t",
         ordinal := some 0 }] [] [(0, 1, 1/2)]) = true ∧
    coreImportance (runCore 1 1 1 (6/10) (9/10) (fun _ _ => 0)
      (fun _ => 5)
      [{ sid := some 0, heading := some "h", text := some "t",
         ordinal := some 0 }] [] [(0, 1, 1/2)]) 0 = 5 ∧
    ErrClass.DegenerateGraph ∈ coreWarnings
      (runCore 1 1 1 (6/10) (9/10) (fun _ _ => 0) (fun _ => 5)
        [{ sid := some 0, heading := some "h", text := some "t",
           ordinal := some 0 }] [] [(0, 1, 1/2)]) := by
  have h := runCore_error_policy.2.2 1 1 1 (6/10) (9/10)
    (fun _ _ => 0) (fun _ => 5)
    [{ sid := some 0, heading := some "h", text := some "t",
       ordinal := some 0 }] [(0, 1, 1/2)] [(0, 0)] rfl
    (by intro s hs; rw [List.mem_singleton] at hs; subst hs; norm_num)
  exact ⟨(runCore_error_policy.1 ErrClass.MalformedInput).mpr rfl,
    h.1, h.2.1 0, h.2.2⟩

end Docustitch
